import Mathlib

/-
Shallow embedding of the fluidex eth.watch watcher core:
  - src/eth_watch/mod.rs        (EthWatch state machine, poll cycle, backoff)
  - src/eth_watch/eth_state.rs  (ETHState; the priority-queue fields are commented
    out there as TODO, so they are reconstructed from their use in mod.rs and the spec)
  - src/params.rs               (PRIORITY_EXPIRATION)
  - src/eth_client/clients/multiplexer.rs (MultiplexerEthereumClient)
Machine integers (u64, usize) are embedded as Nat; saturating_sub is the
truncated Nat subtraction. Time (std Instant) is embedded as a Nat instant
passed explicitly where the code calls Instant::now. Fallible async calls are
embedded as pure Except results, and every watcher operation additionally
returns the list of client calls it actually issued, in order.
-/

namespace EthWatcher

/-- params.rs: priority op should be executed for this number of eth blocks. -/
def PRIORITY_EXPIRATION : Nat := 35000

/-- mod.rs RATE_LIMIT_DELAY: thirty seconds, embedded as a Nat number of seconds. -/
def RATE_LIMIT_DELAY : Nat := 30

/-- Modelled from the spec: the opaque operation payload of a PriorityOperation
(types/priority_ops.rs is missing from src); only the derived chunk cost used
for batching is kept, as the spec section 3 prescribes. -/
structure FluidexPriorityOp where
  chunks : Nat
deriving DecidableEq, Repr

/-- Modelled from the spec: PriorityOperation (types/priority_ops.rs is missing
from src): serial_id assigned by the chain contract, eth_block of inclusion,
and the opaque payload carrying the chunk cost. -/
structure PriorityOp where
  serial_id : Nat
  eth_block : Nat
  data : FluidexPriorityOp
deriving DecidableEq, Repr

/-- AddTokenOp administrative event; only the inclusion block is relevant here. -/
structure AddTokenOp where
  eth_block : Nat
deriving DecidableEq, Repr

/-- RegUserOp administrative event (types/account/register_user.rs); only the
inclusion block is relevant here. -/
structure RegUserOp where
  eth_block : Nat
deriving DecidableEq, Repr

/-- Modelled from the spec: ReceivedPriorityOp (eth_watch/received_ops.rs is
missing from src): the wrapper a PriorityOp is converted into once it clears
the confirmation depth; as_ref in mod.rs yields the inner operation. -/
structure ReceivedPriorityOp where
  op : PriorityOp
deriving DecidableEq, Repr

/-- web3 BlockNumber as used by mod.rs: a concrete height or Latest. -/
inductive BlockNumber where
  | Number : Nat → BlockNumber
  | Latest : BlockNumber
deriving DecidableEq, Repr

/-- Association-list embedding of std HashMap from u64 to ReceivedPriorityOp:
insertion overwrites the binding of an existing key in place and appends a
fresh key at the end; lookup takes the first matching binding. -/
abbrev PQueue := List (Nat × ReceivedPriorityOp)

/-- Lookup by serial id: first matching binding. -/
def PQueue.find? : PQueue → Nat → Option ReceivedPriorityOp
  | [], _ => none
  | (k, v) :: rest, key => if k = key then some v else PQueue.find? rest key

/-- HashMap insert: overwrite the binding of an existing key, else append. -/
def PQueue.insert : PQueue → Nat → ReceivedPriorityOp → PQueue
  | [], key, v => [(key, v)]
  | (k, w) :: rest, key, v =>
    if k = key then (k, v) :: rest else (k, w) :: PQueue.insert rest key v

/-- Largest key present in the queue (zero for the empty queue); used as a
bound for the fuel of the query loop. -/
def PQueue.maxKey : PQueue → Nat
  | [] => 0
  | (k, _) :: rest => max k (PQueue.maxKey rest)

/-- eth_state.rs ETHState, with the fields that are commented out there as TODO
reconstructed from their use in mod.rs and the spec section 3: the last folded
block, the unconfirmed queue reported per cycle, and the accepted priority
queue keyed by serial id. -/
structure ETHState where
  last_ethereum_block : Nat
  unconfirmed_queue : List PriorityOp
  priority_queue : PQueue
deriving Repr

/-- ETHState::new. -/
def ETHState.new (last_ethereum_block : Nat) (unconfirmed_queue : List PriorityOp)
    (priority_queue : PQueue) : ETHState :=
  ⟨last_ethereum_block, unconfirmed_queue, priority_queue⟩

/-- ETHState::default: zero last block, empty queues. -/
def ETHState.initial : ETHState := ⟨0, [], []⟩

/-- mod.rs WatcherMode: Working, or Backoff until a given instant. -/
inductive WatcherMode where
  | Working : WatcherMode
  | Backoff : Nat → WatcherMode
deriving DecidableEq, Repr

/-- Modelled from the spec: the EthClient trait (eth_watch/client.rs is missing
from src). Each method of the chain query interface is a pure oracle; errors
are their anyhow display strings. -/
structure EthClient where
  block_number : Except String Nat
  get_priority_op_events : BlockNumber → BlockNumber → Except String (List PriorityOp)
  get_new_token_events : BlockNumber → BlockNumber → Except String (List AddTokenOp)
  get_register_user_events : BlockNumber → BlockNumber → Except String (List RegUserOp)

/-- One client call issued by the watcher, recorded with its arguments. -/
inductive Call where
  | block_number : Call
  | get_priority_op_events : BlockNumber → BlockNumber → Call
  | get_new_token_events : BlockNumber → BlockNumber → Call
  | get_register_user_events : BlockNumber → BlockNumber → Call
deriving DecidableEq, Repr

/-- mod.rs EthWatch. -/
structure EthWatch where
  client : EthClient
  eth_state : ETHState
  number_of_confirmations_for_event : Nat
  mode : WatcherMode

/-- EthWatch::new. -/
def EthWatch.new (client : EthClient) (number_of_confirmations_for_event : Nat) : EthWatch :=
  { client := client
    eth_state := ETHState.initial
    mode := WatcherMode.Working
    number_of_confirmations_for_event := number_of_confirmations_for_event }

/-- mod.rs UnconfirmedOps. -/
structure UnconfirmedOps where
  priority_ops : List PriorityOp
  addtoken_ops : List AddTokenOp
  registeruser_ops : List RegUserOp

/-- mod.rs AcceptedOps; the priority ops are already collected into the map. -/
structure AcceptedOps where
  priority_ops : PQueue
  addtoken_ops : List AddTokenOp
  registeruser_ops : List RegUserOp

/-- Collection of priority ops into a HashMap keyed by serial id, as in
get_accepted_ops: map over (serial_id, op.into()) and collect. -/
def collectPriorityOps (ops : List PriorityOp) : PQueue :=
  ops.foldl (fun q op => q.insert op.serial_id ⟨op⟩) []

/-- EthWatch::get_unconfirmed_ops: scan from head minus confirmations plus one
up to Latest; the second component records the calls actually issued. -/
def get_unconfirmed_ops (w : EthWatch) (current_ethereum_block : Nat) :
    Except String UnconfirmedOps × List Call :=
  let block_from_number := current_ethereum_block - w.number_of_confirmations_for_event + 1
  let block_from := BlockNumber.Number block_from_number
  let block_to := BlockNumber.Latest
  match w.client.get_priority_op_events block_from block_to with
  | .error e => (.error e, [Call.get_priority_op_events block_from block_to])
  | .ok unconfirmed_priority_ops =>
    match w.client.get_new_token_events block_from block_to with
    | .error e =>
      (.error e, [Call.get_priority_op_events block_from block_to,
                  Call.get_new_token_events block_from block_to])
    | .ok unconfirmed_addtoken_ops =>
      match w.client.get_register_user_events block_from block_to with
      | .error e =>
        (.error e, [Call.get_priority_op_events block_from block_to,
                    Call.get_new_token_events block_from block_to,
                    Call.get_register_user_events block_from block_to])
      | .ok unconfirmed_registeruser_ops =>
        (.ok ⟨unconfirmed_priority_ops, unconfirmed_addtoken_ops, unconfirmed_registeruser_ops⟩,
         [Call.get_priority_op_events block_from block_to,
          Call.get_new_token_events block_from block_to,
          Call.get_register_user_events block_from block_to])

/-- EthWatch::get_accepted_ops: query the three event kinds over the inclusive
range from previous_block_with_accepted_events to new_block_with_accepted_events. -/
def get_accepted_ops (w : EthWatch) (previous_block_with_accepted_events : Nat)
    (new_block_with_accepted_events : Nat) : Except String AcceptedOps × List Call :=
  let b1 := BlockNumber.Number previous_block_with_accepted_events
  let b2 := BlockNumber.Number new_block_with_accepted_events
  match w.client.get_priority_op_events b1 b2 with
  | .error e => (.error e, [Call.get_priority_op_events b1 b2])
  | .ok accepted_priority_ops =>
    match w.client.get_new_token_events b1 b2 with
    | .error e =>
      (.error e, [Call.get_priority_op_events b1 b2, Call.get_new_token_events b1 b2])
    | .ok accepted_addtoken_queue =>
      match w.client.get_register_user_events b1 b2 with
      | .error e =>
        (.error e, [Call.get_priority_op_events b1 b2, Call.get_new_token_events b1 b2,
                    Call.get_register_user_events b1 b2])
      | .ok accepted_registeruser_queue =>
        (.ok ⟨collectPriorityOps accepted_priority_ops, accepted_addtoken_queue,
              accepted_registeruser_queue⟩,
         [Call.get_priority_op_events b1 b2, Call.get_new_token_events b1 b2,
          Call.get_register_user_events b1 b2])

/-- EthWatch::update_eth_state: the new accepted bound is the head saturating
minus confirmations, the previous bound is that saturating minus the amount of
unprocessed blocks; query the unconfirmed ops and then the accepted ops. -/
def update_eth_state (w : EthWatch) (current_ethereum_block : Nat)
    (unprocessed_blocks_amount : Nat) :
    Except String (UnconfirmedOps × AcceptedOps) × List Call :=
  let new_block_with_accepted_events :=
    current_ethereum_block - w.number_of_confirmations_for_event
  let previous_block_with_accepted_events :=
    new_block_with_accepted_events - unprocessed_blocks_amount
  match get_unconfirmed_ops w current_ethereum_block with
  | (.error e, t) => (.error e, t)
  | (.ok unconfirmed_ops, t1) =>
    match get_accepted_ops w previous_block_with_accepted_events new_block_with_accepted_events with
    | (.error e, t2) => (.error e, t1 ++ t2)
    | (.ok accepted_ops, t2) => (.ok (unconfirmed_ops, accepted_ops), t1 ++ t2)

/-- Modelled from the spec: sift_outdated_ops (eth_watch/received_ops.rs is
missing from src). Spec section 4.4: given the previous accepted map, drop
every entry whose block height is no longer within PRIORITY_EXPIRATION of the
new head; per section 8 an entry survives exactly when its eth_block exceeds
the new head saturating minus PRIORITY_EXPIRATION. The call site in mod.rs
passes only the map; the new head is made an explicit argument here. -/
def sift_outdated_ops (new_head : Nat) (q : PQueue) : PQueue :=
  q.filter (fun kv => new_head - PRIORITY_EXPIRATION < kv.2.op.eth_block)

/-- The merging loop of process_new_blocks: insert every accepted binding into
the queue, in order, with HashMap overwrite semantics. -/
def mergeAccepted (q : PQueue) (accepted : PQueue) : PQueue :=
  accepted.foldl (fun m kv => m.insert kv.1 kv.2) q

/-- EthWatch::process_new_blocks: compute the block difference since the last
folded block, update, sift the old queue against the new head, merge the newly
accepted ops, and replace the state atomically. -/
def process_new_blocks (w : EthWatch) (last_ethereum_block : Nat) :
    Except String EthWatch × List Call :=
  let block_difference := last_ethereum_block - w.eth_state.last_ethereum_block
  match update_eth_state w last_ethereum_block block_difference with
  | (.error e, t) => (.error e, t)
  | (.ok (unconfirmed_queue, accepted_queue), t) =>
    let priority_queue :=
      mergeAccepted (sift_outdated_ops last_ethereum_block w.eth_state.priority_queue)
        accepted_queue.priority_ops
    let new_state :=
      ETHState.new last_ethereum_block unconfirmed_queue.priority_ops priority_queue
    (.ok { w with eth_state := new_state }, t)

/-- EthWatch::restore_state_from_eth: full reconciliation with the amount of
unprocessed blocks set to PRIORITY_EXPIRATION; the queue is seeded from the
accepted ops alone. -/
def restore_state_from_eth (w : EthWatch) (last_ethereum_block : Nat) :
    Except String EthWatch × List Call :=
  match update_eth_state w last_ethereum_block PRIORITY_EXPIRATION with
  | (.error e, t) => (.error e, t)
  | (.ok (unconfirmed_queue, accepted_queue), t) =>
    let new_state :=
      ETHState.new last_ethereum_block unconfirmed_queue.priority_ops
        accepted_queue.priority_ops
    (.ok { w with eth_state := new_state }, t)

/-- Loop body of EthWatch::get_priority_requests, with explicit fuel. The fuel
passed by the wrapper below always suffices: the loop stops by itself once the
current serial id exceeds every key of the queue. -/
def get_priority_requests_go (q : PQueue) (max_chunks : Nat) :
    Nat → Nat → Nat → List PriorityOp
  | 0, _, _ => []
  | fuel + 1, current_priority_op, used_chunks =>
    match q.find? current_priority_op with
    | none => []
    | some op =>
      if used_chunks + op.op.data.chunks ≤ max_chunks then
        op.op :: get_priority_requests_go q max_chunks fuel (current_priority_op + 1)
          (used_chunks + op.op.data.chunks)
      else []

/-- EthWatch::get_priority_requests: walk serial ids from first_serial_id while
present in the queue and within the chunk budget. -/
def get_priority_requests (w : EthWatch) (first_serial_id : Nat) (max_chunks : Nat) :
    List PriorityOp :=
  get_priority_requests_go w.eth_state.priority_queue max_chunks
    (w.eth_state.priority_queue.maxKey + 1 - first_serial_id) first_serial_id 0

/-- EthWatch::poll_eth_node: fetch the head; process new blocks only when the
head exceeds the last folded block. -/
def poll_eth_node (w : EthWatch) : Except String EthWatch × List Call :=
  match w.client.block_number with
  | .error e => (.error e, [Call.block_number])
  | .ok last_block_number =>
    if w.eth_state.last_ethereum_block < last_block_number then
      match process_new_blocks w last_block_number with
      | (r, t) => (r, Call.block_number :: t)
    else (.ok w, [Call.block_number])

/-- Substring the watcher looks for to detect rate limiting. -/
def RATE_LIMIT_PATTERN : String := "429 Too Many Requests"

/-- Executable substring check: does the needle occur contiguously in the
haystack. -/
def containsPattern : List Char → List Char → Bool
  | [], needle => needle.isEmpty
  | c :: rest, needle => needle.isPrefixOf (c :: rest) || containsPattern rest needle

/-- EthWatch::is_backoff_requested: substring match on the error display text. -/
def is_backoff_requested (error : String) : Bool :=
  containsPattern error.toList RATE_LIMIT_PATTERN.toList

/-- EthWatch::enter_backoff_mode at instant now: Backoff until now plus
RATE_LIMIT_DELAY. -/
def enter_backoff_mode (w : EthWatch) (now : Nat) : EthWatch :=
  { w with mode := WatcherMode.Backoff (now + RATE_LIMIT_DELAY) }

/-- EthWatch::polling_allowed at instant now: Working allows polling; Backoff
allows it, flipping the mode back to Working, once now reaches the instant. -/
def polling_allowed (w : EthWatch) (now : Nat) : Bool × EthWatch :=
  match w.mode with
  | WatcherMode.Working => (true, w)
  | WatcherMode.Backoff delay_until =>
    if delay_until ≤ now then (true, { w with mode := WatcherMode.Working })
    else (false, w)

/-- Error handling of one poll in EthWatch::run: a successful poll yields the
polled watcher; a failed poll enters backoff exactly when the error text
matches the rate-limit pattern, and otherwise only logs, leaving the watcher
as it was before the poll. -/
def poll_outcome (w1 : EthWatch) (now : Nat)
    (r : Except String EthWatch × List Call) : EthWatch × List Call :=
  match r with
  | (.ok w2, t) => (w2, t)
  | (.error e, t) =>
    if is_backoff_requested e then (enter_backoff_mode w1 now, t) else (w1, t)

/-- One PollETHNode iteration of EthWatch::run at instant now: skip when
polling is not allowed; otherwise poll and handle the outcome. -/
def handle_poll_message (w : EthWatch) (now : Nat) : EthWatch × List Call :=
  match polling_allowed w now with
  | (false, w1) => (w1, [])
  | (true, w1) => poll_outcome w1 now (poll_eth_node w1)

/-- The inclusive accepted-range window a poll at the given head queries when
the watcher last folded last_block: exactly the pair
(previous_block_with_accepted_events, new_block_with_accepted_events) that
update_eth_state computes when called from process_new_blocks, where the
amount of unprocessed blocks is the block difference head minus last_block. -/
def acceptedWindow (last_block head confirmations : Nat) : Nat × Nat :=
  let new_block_with_accepted_events := head - confirmations
  (new_block_with_accepted_events - (head - last_block), new_block_with_accepted_events)

/-- The accepted-range windows queried across a sequence of successive polls:
a poll whose head does not exceed the current last block is a no-op, any other
poll queries its accepted window and folds the head into the last block. -/
def pollWindows (confirmations : Nat) : Nat → List Nat → List (Nat × Nat)
  | _, [] => []
  | last_block, h :: rest =>
    if last_block < h then
      acceptedWindow last_block h confirmations :: pollWindows confirmations h rest
    else pollWindows confirmations last_block rest

/-- The last folded block after the same sequence of polls. -/
def finalBlock : Nat → List Nat → Nat
  | last_block, [] => last_block
  | last_block, h :: rest =>
    if last_block < h then finalBlock h rest else finalBlock last_block rest

/-- The last binding of a key in an association list, if any; the value a fold
of HashMap inserts over the list leaves for that key. -/
def lastBinding : List (Nat × ReceivedPriorityOp) → Nat → Option ReceivedPriorityOp
  | [], _ => none
  | kv :: rest, k =>
    match lastBinding rest k with
    | some v => some v
    | none => if kv.1 = k then some kv.2 else none

/-- Sum of the chunk costs of a list of priority ops. -/
def sumChunks (ops : List PriorityOp) : Nat :=
  (ops.map (fun op => op.data.chunks)).sum

/-- Client of the spec scenario: the chain head is at 145 and every event
query returns no events. -/
def scenarioClient : EthClient :=
  { block_number := .ok 145
    get_priority_op_events := fun _ _ => .ok []
    get_new_token_events := fun _ _ => .ok []
    get_register_user_events := fun _ _ => .ok [] }

/-- Fresh watcher of the spec scenario: confirmations ten, no prior state. -/
def scenarioWatch : EthWatch := EthWatch.new scenarioClient 10

/-- The scenario watcher after restore_state_from_eth at head 140. -/
def scenarioRestored : EthWatch :=
  match (restore_state_from_eth scenarioWatch 140).1 with
  | .ok w => w
  | .error _ => scenarioWatch

/-- Shorthand for building a priority op from serial id, block and chunk cost. -/
def mkOp (serial_id eth_block chunks : Nat) : PriorityOp :=
  ⟨serial_id, eth_block, ⟨chunks⟩⟩

/-- The queue of the contiguity example: serial ids five to seven and nine
with chunk costs three, four, five and one. -/
def exampleQueue : PQueue :=
  [(5, ⟨mkOp 5 100 3⟩), (6, ⟨mkOp 6 100 4⟩), (7, ⟨mkOp 7 100 5⟩), (9, ⟨mkOp 9 100 1⟩)]

/-- A watcher holding the contiguity example queue. -/
def exampleWatch : EthWatch :=
  { client := scenarioClient
    eth_state := ⟨0, [], exampleQueue⟩
    number_of_confirmations_for_event := 0
    mode := WatcherMode.Working }

/-- A priority op included at block one: far older than the expiration window
once the head reaches forty thousand. -/
def staleOp : PriorityOp := mkOp 1 1 1

/-- Client for the expiry counterexample: head forty thousand; the priority
op at block one is reported exactly for queries whose lower bound is block
zero, so the report is consistent with the queried range. -/
def staleClient : EthClient :=
  { block_number := .ok 40000
    get_priority_op_events := fun b1 _ =>
      if b1 = BlockNumber.Number 0 then .ok [staleOp] else .ok []
    get_new_token_events := fun _ _ => .ok []
    get_register_user_events := fun _ _ => .ok [] }

/-- Watcher for the expiry counterexample: zero confirmations, empty state. -/
def staleWatch : EthWatch := EthWatch.new staleClient 0

/-- The priority queue after the expiry-counterexample poll. -/
def stalePolledQueue : PQueue :=
  match (poll_eth_node staleWatch).1 with
  | .ok w => w.eth_state.priority_queue
  | .error _ => []

/-- Client whose head query fails with a non-rate-limit error. -/
def errOther : String := "connection reset by peer"

/-- Error text of a rate-limited provider. -/
def errRateLimited : String := "http status 429 Too Many Requests from node"

/-- Client that always fails its head query with a generic error. -/
def failingClient : EthClient :=
  { block_number := .error errOther
    get_priority_op_events := fun _ _ => .error errOther
    get_new_token_events := fun _ _ => .error errOther
    get_register_user_events := fun _ _ => .error errOther }

/-- Client that always fails its head query with a rate-limit error. -/
def rateLimitedClient : EthClient :=
  { block_number := .error errRateLimited
    get_priority_op_events := fun _ _ => .error errRateLimited
    get_new_token_events := fun _ _ => .error errRateLimited
    get_register_user_events := fun _ _ => .error errRateLimited }

/-- Watcher over the always-failing client. -/
def failingWatch : EthWatch := EthWatch.new failingClient 10

/-- Watcher over the rate-limited client. -/
def rateLimitedWatch : EthWatch := EthWatch.new rateLimitedClient 10

/-- Watcher over the scenario client that is in backoff until instant 100. -/
def backoffWatch : EthWatch :=
  { client := scenarioClient
    eth_state := ⟨150, [], []⟩
    number_of_confirmations_for_event := 10
    mode := WatcherMode.Backoff 100 }

/-- One provider of the multiplexer embedding: the outcome its delegated call
would produce, and the value its pure tx-data encoding would produce. -/
structure MultiplexedProvider (α β : Type) where
  call_result : Except String α
  encode_result : β

/-- multiplexer.rs MultiplexerEthereumClient: an ordered list of named
providers. -/
structure MultiplexerEthereumClient (α β : Type) where
  clients : List (String × MultiplexedProvider α β)

/-- MultiplexerEthereumClient::new: empty provider list. -/
def MultiplexerEthereumClient.new {α β : Type} : MultiplexerEthereumClient α β := ⟨[]⟩

/-- MultiplexerEthereumClient::add_client: push the named provider at the end. -/
def MultiplexerEthereumClient.add_client {α β : Type} (self : MultiplexerEthereumClient α β)
    (name : String) (client : MultiplexedProvider α β) : MultiplexerEthereumClient α β :=
  ⟨self.clients ++ [(name, client)]⟩

/-- Aggregate error produced when every provider fails. -/
def ALL_FAILED : String := "All interfaces was wrong please try again"

/-- multiplexer.rs multiple_call macro body: try the providers in list order,
return the first success, log and skip each failure, fail with the aggregate
error once the list is exhausted. The second component records the names of
the providers actually invoked, in order. -/
def multiple_call {α β : Type} :
    List (String × MultiplexedProvider α β) → Except String α × List String
  | [] => (.error ALL_FAILED, [])
  | (name, client) :: rest =>
    match client.call_result with
    | .ok res => (.ok res, [name])
    | .error _ =>
      match multiple_call rest with
      | (r, invoked) => (r, name :: invoked)

/-- MultiplexerEthereumClient delegated call through multiple_call. -/
def MultiplexerEthereumClient.call {α β : Type} (self : MultiplexerEthereumClient α β) :
    Except String α × List String :=
  multiple_call self.clients

/-- MultiplexerEthereumClient::encode_tx_data: always the first provider; the
expect on an empty provider list panics, embedded as none. -/
def MultiplexerEthereumClient.encode_tx_data {α β : Type}
    (self : MultiplexerEthereumClient α β) : Option β :=
  self.clients.head?.map (fun nc => nc.2.encode_result)

/-- The scenario watcher after the second poll, at head 145. -/
def scenarioPolled : EthWatch :=
  match (process_new_blocks scenarioRestored 145).1 with
  | .ok w => w
  | .error _ => scenarioRestored

/-- The stale-counterexample watcher after its poll at head forty thousand. -/
def stalePolledWatch : EthWatch :=
  match (poll_eth_node staleWatch).1 with
  | .ok w => w
  | .error _ => staleWatch

/-- The unconfirmed ops of the stale-counterexample poll. -/
def staleUnconfirmed : UnconfirmedOps := ⟨[], [], []⟩

/-- The accepted ops of the stale-counterexample poll. -/
def staleAccepted : AcceptedOps := ⟨[(1, ReceivedPriorityOp.mk staleOp)], [], []⟩

/-- A received op at block six thousand, within the expiration window of head
forty thousand. -/
def freshRop : ReceivedPriorityOp := ⟨mkOp 2 6000 1⟩

/-- Name of the first witness provider. -/
def nameA : String := "A"

/-- Name of the second witness provider. -/
def nameB : String := "B"

/-- Name of the third witness provider. -/
def nameC : String := "C"

/-- A failing provider. -/
def provA : MultiplexedProvider Nat Nat := ⟨.error errOther, 17⟩

/-- A succeeding provider returning seven. -/
def provB : MultiplexedProvider Nat Nat := ⟨.ok 7, 23⟩

/-- A succeeding provider returning nine, placed after provB. -/
def provC : MultiplexedProvider Nat Nat := ⟨.ok 9, 29⟩

/-- A multiplexer with a failing provider followed by two succeeding ones. -/
def muxABC : MultiplexerEthereumClient Nat Nat :=
  ⟨[(nameA, provA), (nameB, provB), (nameC, provC)]⟩

/-- Whether an Except result is a failure. -/
def exceptFailed {ε α : Type} : Except ε α → Bool
  | .error _ => true
  | .ok _ => false

/-- Provider names of a multiplexer client list, in order. -/
def providerNames {α β : Type} (clients : List (String × MultiplexedProvider α β)) :
    List String :=
  clients.map (fun nc => nc.1)

theorem PQueue.find?_insert (q : PQueue) (k : Nat) (v : ReceivedPriorityOp) (k' : Nat) :
    (q.insert k v).find? k' = if k = k' then some v else q.find? k' := by
  induction q with
  | nil =>
    simp only [PQueue.insert, PQueue.find?]
  | cons kv rest ih =>
    obtain ⟨k0, v0⟩ := kv
    by_cases h0 : k0 = k
    · subst h0
      simp only [PQueue.insert, if_pos rfl, PQueue.find?]
      by_cases h1 : k0 = k' <;> simp [h1]
    · simp only [PQueue.insert, if_neg h0, PQueue.find?, ih]
      by_cases h1 : k0 = k' <;> by_cases h2 : k = k' <;> simp_all

theorem lastBinding_mem (l : List (Nat × ReceivedPriorityOp)) (k : Nat)
    (v : ReceivedPriorityOp) (h : lastBinding l k = some v) : (k, v) ∈ l := by
  induction l with
  | nil => simp [lastBinding] at h
  | cons kv rest ih =>
    simp only [lastBinding] at h
    cases hr : lastBinding rest k with
    | some w =>
      rw [hr] at h
      have h2 : some w = some v := h
      injection h2 with h2
      subst h2
      exact List.mem_cons_of_mem _ (ih hr)
    | none =>
      rw [hr] at h
      have h2 : (if kv.1 = k then some kv.2 else none) = some v := h
      by_cases hk : kv.1 = k
      · rw [if_pos hk] at h2
        injection h2 with h2
        subst h2
        have hkv : kv = (k, kv.2) := by
          rw [← hk]
        rw [← hkv]
        exact List.mem_cons_self _ _
      · rw [if_neg hk] at h2
        cases h2

theorem find?_mergeAccepted (l : PQueue) (q : PQueue) (k : Nat) :
    (mergeAccepted q l).find? k =
      match lastBinding l k with
      | some v => some v
      | none => q.find? k := by
  induction l generalizing q with
  | nil => simp [mergeAccepted, lastBinding]
  | cons kv rest ih =>
    have hstep : mergeAccepted q (kv :: rest) = mergeAccepted (q.insert kv.1 kv.2) rest := by
      simp [mergeAccepted]
    rw [hstep, ih]
    simp only [lastBinding]
    cases hr : lastBinding rest k with
    | some w => rfl
    | none =>
      simp only [PQueue.find?_insert]
      by_cases hk : kv.1 = k <;> simp [hk]

theorem PQueue.find?_le_maxKey (q : PQueue) (k : Nat) (v : ReceivedPriorityOp)
    (h : q.find? k = some v) : k ≤ q.maxKey := by
  induction q with
  | nil => simp [PQueue.find?] at h
  | cons kv rest ih =>
    obtain ⟨k0, v0⟩ := kv
    simp only [PQueue.find?] at h
    by_cases h0 : k0 = k
    · subst h0
      exact Nat.le_max_left _ _
    · rw [if_neg h0] at h
      exact Nat.le_trans (ih h) (Nat.le_max_right _ _)

@[simp] theorem sumChunks_nil : sumChunks [] = 0 := rfl

@[simp] theorem sumChunks_cons (op : PriorityOp) (l : List PriorityOp) :
    sumChunks (op :: l) = op.data.chunks + sumChunks l := by
  simp [sumChunks]

theorem get_priority_requests_go_none (q : PQueue) (max_chunks fuel current used : Nat)
    (h : q.find? current = none) :
    get_priority_requests_go q max_chunks (fuel + 1) current used = [] := by
  simp [get_priority_requests_go, h]

theorem get_priority_requests_go_some_le (q : PQueue) (max_chunks fuel current used : Nat)
    (op : ReceivedPriorityOp) (h : q.find? current = some op)
    (hle : used + op.op.data.chunks ≤ max_chunks) :
    get_priority_requests_go q max_chunks (fuel + 1) current used =
      op.op :: get_priority_requests_go q max_chunks fuel (current + 1)
        (used + op.op.data.chunks) := by
  simp [get_priority_requests_go, h, hle]

theorem get_priority_requests_go_some_gt (q : PQueue) (max_chunks fuel current used : Nat)
    (op : ReceivedPriorityOp) (h : q.find? current = some op)
    (hle : ¬ used + op.op.data.chunks ≤ max_chunks) :
    get_priority_requests_go q max_chunks (fuel + 1) current used = [] := by
  simp [get_priority_requests_go, h, hle]

theorem get_priority_requests_go_spec (q : PQueue) (max_chunks : Nat) (fuel : Nat) :
    ∀ current used,
      (∀ k v, q.find? k = some v → k < current + fuel) →
      ((∀ i, (hi : i < (get_priority_requests_go q max_chunks fuel current used).length) →
          ∃ rop, q.find? (current + i) = some rop ∧
            (get_priority_requests_go q max_chunks fuel current used).get ⟨i, hi⟩ = rop.op) ∧
       (used + sumChunks (get_priority_requests_go q max_chunks fuel current used) ≤ max_chunks ∨
          get_priority_requests_go q max_chunks fuel current used = []) ∧
       (∀ rop,
          q.find? (current + (get_priority_requests_go q max_chunks fuel current used).length) =
            some rop →
          max_chunks <
            used + sumChunks (get_priority_requests_go q max_chunks fuel current used) +
              rop.op.data.chunks)) := by
  induction fuel with
  | zero =>
    intro current used hfuel
    refine ⟨?_, Or.inr rfl, ?_⟩
    · intro i hi
      simp [get_priority_requests_go] at hi
    · intro rop h
      have := hfuel _ _ h
      omega
  | succ fuel ih =>
    intro current used hfuel
    cases hcur : q.find? current with
    | none =>
      rw [get_priority_requests_go_none q max_chunks fuel current used hcur]
      refine ⟨?_, Or.inr rfl, ?_⟩
      · intro i hi
        simp at hi
      · intro rop h
        simp only [List.length_nil, Nat.add_zero] at h
        rw [hcur] at h
        cases h
    | some op =>
      by_cases hle : used + op.op.data.chunks ≤ max_chunks
      · rw [get_priority_requests_go_some_le q max_chunks fuel current used op hcur hle]
        have hfuel2 : ∀ k v, q.find? k = some v → k < (current + 1) + fuel := by
          intro k v h
          have := hfuel k v h
          omega
        obtain ⟨ih1, ih2, ih3⟩ := ih (current + 1) (used + op.op.data.chunks) hfuel2
        refine ⟨?_, ?_, ?_⟩
        · intro i hi
          cases i with
          | zero => exact ⟨op, by simpa using hcur, rfl⟩
          | succ j =>
            have hj : j < (get_priority_requests_go q max_chunks fuel (current + 1)
                (used + op.op.data.chunks)).length := by
              simpa using hi
            obtain ⟨rop, h1, h2⟩ := ih1 j hj
            refine ⟨rop, ?_, ?_⟩
            · have harith : current + (j + 1) = current + 1 + j := by omega
              rw [harith]
              exact h1
            · simpa using h2
        · cases ih2 with
          | inl h =>
            left
            simp only [sumChunks_cons]
            omega
          | inr h =>
            left
            rw [h]
            simpa using hle
        · intro rop h
          simp only [List.length_cons] at h
          have harith : current + ((get_priority_requests_go q max_chunks fuel (current + 1)
              (used + op.op.data.chunks)).length + 1) =
              current + 1 + (get_priority_requests_go q max_chunks fuel (current + 1)
                (used + op.op.data.chunks)).length := by omega
          rw [harith] at h
          have := ih3 rop h
          simp only [sumChunks_cons]
          omega
      · rw [get_priority_requests_go_some_gt q max_chunks fuel current used op hcur hle]
        refine ⟨?_, Or.inr rfl, ?_⟩
        · intro i hi
          simp at hi
        · intro rop h
          simp only [List.length_nil, Nat.add_zero] at h
          rw [hcur] at h
          have h2 : op = rop := by
            injection h
          subst h2
          simp only [sumChunks_nil]
          omega

/-- C3: get_priority_requests returns exactly the longest strictly-contiguous
run of priority ops with serial ids first_serial_id, first_serial_id plus one
and so on present in the queue, whose cumulative chunk cost stays within
max_chunks, stopping at the first missing serial id or the first op that would
overflow the budget; in particular, against the queue with serial ids five,
six, seven and nine of costs three, four, five and one, a query starting at
five with budget ten returns exactly the ops with ids five and six. -/
theorem C3_get_priority_requests_contiguous :
    (∀ (w : EthWatch) (first_serial_id max_chunks : Nat),
      (∀ i, (hi : i < (get_priority_requests w first_serial_id max_chunks).length) →
        ∃ rop, w.eth_state.priority_queue.find? (first_serial_id + i) = some rop ∧
          (get_priority_requests w first_serial_id max_chunks).get ⟨i, hi⟩ = rop.op) ∧
      sumChunks (get_priority_requests w first_serial_id max_chunks) ≤ max_chunks ∧
      (∀ rop, w.eth_state.priority_queue.find?
          (first_serial_id + (get_priority_requests w first_serial_id max_chunks).length) =
            some rop →
        max_chunks < sumChunks (get_priority_requests w first_serial_id max_chunks) +
          rop.op.data.chunks)) ∧
    get_priority_requests exampleWatch 5 10 = [mkOp 5 100 3, mkOp 6 100 4] := by
  constructor
  · intro w first_serial_id max_chunks
    simp only [get_priority_requests]
    have hfuel : ∀ k v, w.eth_state.priority_queue.find? k = some v →
        k < first_serial_id + (w.eth_state.priority_queue.maxKey + 1 - first_serial_id) := by
      intro k v h
      have := PQueue.find?_le_maxKey _ _ _ h
      omega
    obtain ⟨h1, h2, h3⟩ := get_priority_requests_go_spec w.eth_state.priority_queue max_chunks
      (w.eth_state.priority_queue.maxKey + 1 - first_serial_id) first_serial_id 0 hfuel
    refine ⟨h1, ?_, ?_⟩
    · cases h2 with
      | inl h => omega
      | inr h =>
        rw [h]
        simp
    · intro rop hr
      have := h3 rop hr
      omega
  · rfl

/-- Witness for C3: at the example queue, the run returned for start id five
and budget ten fits the budget and is exactly the ops five and six. -/
theorem C3_witness :
    sumChunks (get_priority_requests exampleWatch 5 10) ≤ 10 ∧
    get_priority_requests exampleWatch 5 10 = [mkOp 5 100 3, mkOp 6 100 4] :=
  ⟨(C3_get_priority_requests_contiguous.1 exampleWatch 5 10).2.1,
   C3_get_priority_requests_contiguous.2⟩

/-- C9: merging the priority ops of the same accepted range into the priority
queue twice yields the same contents as merging it once: the merging loop of
process_new_blocks inserts keyed by serial id and overwrites on duplicates,
so every lookup agrees between the two results. -/
theorem C9_merge_idempotent (q accepted : PQueue) (k : Nat) :
    (mergeAccepted (mergeAccepted q accepted) accepted).find? k =
      (mergeAccepted q accepted).find? k := by
  rw [find?_mergeAccepted, find?_mergeAccepted]
  cases h : lastBinding accepted k <;> simp

theorem sift_outdated_ops_fresh (new_head : Nat) (q : PQueue) :
    ∀ k v, (sift_outdated_ops new_head q).find? k = some v →
      new_head - PRIORITY_EXPIRATION < v.op.eth_block := by
  induction q with
  | nil =>
    intro k v h
    simp [sift_outdated_ops, PQueue.find?] at h
  | cons kv rest ih =>
    intro k v h
    simp only [sift_outdated_ops, List.filter_cons] at h
    by_cases hp : new_head - PRIORITY_EXPIRATION < kv.2.op.eth_block
    · rw [if_pos (by simpa using hp)] at h
      simp only [PQueue.find?] at h
      by_cases hk : kv.1 = k
      · rw [if_pos hk] at h
        injection h with h
        subst h
        exact hp
      · rw [if_neg hk] at h
        exact ih k v h
    · rw [if_neg (by simpa using hp)] at h
      exact ih k v h

/-- C8 counterexample: with zero confirmations and last block zero, the poll
to head forty thousand succeeds, and the honest report of a priority op
included at block one lands in the resulting priority queue even though its
block height is at or below the new head minus PRIORITY_EXPIRATION: the
claimed invariant fails for ops freshly inserted from a long accepted window. -/
theorem C8_counterexample :
    (poll_eth_node staleWatch).1 = Except.ok stalePolledWatch ∧
    stalePolledWatch.eth_state.last_ethereum_block = 40000 ∧
    stalePolledWatch.eth_state.priority_queue.find? 1 = some (ReceivedPriorityOp.mk staleOp) ∧
    staleOp.eth_block ≤ 40000 - PRIORITY_EXPIRATION :=
  ⟨rfl, rfl, rfl, by decide⟩

/-- C8 amended: after every successful poll advancing the head to H, every
entry of the new priority queue whose block height is at or below H minus
PRIORITY_EXPIRATION is one of the bindings freshly collected by the
accepted-range query of that poll, and every entry that survived
sift_outdated_ops has block height strictly above that bound: expiry against
the new head holds for everything retained from the previous queue, while
freshly inserted accepted ops are not filtered. -/
theorem C8_expiry_amended :
    (∀ (w : EthWatch) (H : Nat) (w' : EthWatch) (u : UnconfirmedOps) (a : AcceptedOps)
       (k : Nat) (rop : ReceivedPriorityOp),
       (update_eth_state w H (H - w.eth_state.last_ethereum_block)).1 = Except.ok (u, a) →
       (process_new_blocks w H).1 = Except.ok w' →
       w'.eth_state.priority_queue.find? k = some rop →
       rop.op.eth_block ≤ H - PRIORITY_EXPIRATION →
       (k, rop) ∈ a.priority_ops) ∧
    (∀ (new_head : Nat) (q : PQueue) (k : Nat) (v : ReceivedPriorityOp),
       (sift_outdated_ops new_head q).find? k = some v →
       new_head - PRIORITY_EXPIRATION < v.op.eth_block) := by
  constructor
  · intro w H w' u a k rop hupd hproc hfind hstale
    rcases hu : update_eth_state w H (H - w.eth_state.last_ethereum_block) with ⟨r, t⟩
    rw [hu] at hupd
    have hr : r = Except.ok (u, a) := hupd
    subst hr
    simp only [process_new_blocks, hu] at hproc
    injection hproc with hw
    subst hw
    have hfind2 : (mergeAccepted (sift_outdated_ops H w.eth_state.priority_queue)
        a.priority_ops).find? k = some rop := hfind
    rw [find?_mergeAccepted] at hfind2
    cases hl : lastBinding a.priority_ops k with
    | some v =>
      rw [hl] at hfind2
      have h2 : some v = some rop := hfind2
      injection h2 with h2
      subst h2
      exact lastBinding_mem _ _ _ hl
    | none =>
      rw [hl] at hfind2
      have h2 : (sift_outdated_ops H w.eth_state.priority_queue).find? k = some rop := hfind2
      have := sift_outdated_ops_fresh H w.eth_state.priority_queue k rop h2
      omega
  · intro new_head q k v h
    exact sift_outdated_ops_fresh new_head q k v h

/-- Witness for C8: the stale op of the counterexample poll is indeed one of
the freshly accepted bindings, and a retained entry at block six thousand is
strictly within the expiration window of head forty thousand. -/
theorem C8_witness :
    (1, ReceivedPriorityOp.mk staleOp) ∈ staleAccepted.priority_ops ∧
    40000 - PRIORITY_EXPIRATION < freshRop.op.eth_block :=
  ⟨C8_expiry_amended.1 staleWatch 40000 stalePolledWatch staleUnconfirmed staleAccepted 1
      (ReceivedPriorityOp.mk staleOp) rfl rfl rfl (by decide),
   C8_expiry_amended.2 40000 [(2, freshRop)] 2 freshRop rfl⟩

theorem get_accepted_ops_trace_mem (w : EthWatch) (p n : Nat) :
    Call.get_priority_op_events (BlockNumber.Number p) (BlockNumber.Number n) ∈
      (get_accepted_ops w p n).2 := by
  simp only [get_accepted_ops]
  cases w.client.get_priority_op_events (BlockNumber.Number p) (BlockNumber.Number n) with
  | error e => simp
  | ok x =>
    cases w.client.get_new_token_events (BlockNumber.Number p) (BlockNumber.Number n) with
    | error e => simp
    | ok y =>
      cases w.client.get_register_user_events (BlockNumber.Number p) (BlockNumber.Number n) with
      | error e => simp
      | ok z => simp

theorem pollWindows_cover_aux (confirmations : Nat) (heads : List Nat) :
    ∀ last_block b, last_block - confirmations < b →
      b ≤ finalBlock last_block heads - confirmations →
      ∃ win ∈ pollWindows confirmations last_block heads, win.1 ≤ b ∧ b ≤ win.2 := by
  induction heads with
  | nil =>
    intro last_block b h1 h2
    simp only [finalBlock] at h2
    omega
  | cons h rest ih =>
    intro last_block b h1 h2
    by_cases hlt : last_block < h
    · simp only [pollWindows, if_pos hlt]
      simp only [finalBlock, if_pos hlt] at h2
      by_cases hb : b ≤ h - confirmations
      · refine ⟨acceptedWindow last_block h confirmations, List.mem_cons_self _ _, ?_, ?_⟩
        · simp only [acceptedWindow]
          omega
        · simpa [acceptedWindow] using hb
      · obtain ⟨win, hw1, hw2⟩ := ih h b (by omega) h2
        exact ⟨win, List.mem_cons_of_mem _ hw1, hw2⟩
    · simp only [pollWindows, if_neg hlt]
      simp only [finalBlock, if_neg hlt] at h2
      exact ih last_block b h1 h2

/-- C1 counterexample: with zero confirmations, last block ten and successive
poll heads twenty and thirty, block twenty lies inside both queried accepted
windows (the windows are inclusive at both ends and successive windows share
their boundary), so the union does not cover each block exactly once: a block
in the claimed span is queried twice. -/
theorem C1_counterexample :
    pollWindows 0 10 [20, 30] = [(10, 20), (20, 30)] ∧
    (pollWindows 0 10 [20, 30]).countP (fun win => decide (win.1 ≤ 20 ∧ 20 ≤ win.2)) = 2 ∧
    10 + 1 ≤ 20 ∧ 20 ≤ finalBlock 10 [20, 30] - 0 := by
  decide

/-- C1 amended: the accepted-range window a successful poll queries is the
inclusive window from the new accepted bound minus the block difference up to
head minus confirmations (process_new_blocks issues exactly that query), and
across every sequence of successive polls the union of these windows covers
every block from the initial last_ethereum_block plus one up to the final
head minus confirmations with no gap; the coverage is at least once rather
than exactly once, since successive windows share their boundary block. -/
theorem C1_windows_cover :
    (∀ (w : EthWatch) (head : Nat) (w' : EthWatch),
       (process_new_blocks w head).1 = Except.ok w' →
       Call.get_priority_op_events
           (BlockNumber.Number (acceptedWindow w.eth_state.last_ethereum_block head
              w.number_of_confirmations_for_event).1)
           (BlockNumber.Number (acceptedWindow w.eth_state.last_ethereum_block head
              w.number_of_confirmations_for_event).2) ∈
         (process_new_blocks w head).2) ∧
    (∀ (confirmations last_block : Nat) (heads : List Nat) (b : Nat),
       last_block < b → b ≤ finalBlock last_block heads - confirmations →
       ∃ win ∈ pollWindows confirmations last_block heads, win.1 ≤ b ∧ b ≤ win.2) := by
  constructor
  · intro w head w' h
    simp only [process_new_blocks, update_eth_state, acceptedWindow] at h ⊢
    rcases hu : get_unconfirmed_ops w head with ⟨ru, t1⟩
    rw [hu] at h
    cases ru with
    | error e => exact Except.noConfusion h
    | ok u0 =>
      rcases ha : get_accepted_ops w
          (head - w.number_of_confirmations_for_event -
            (head - w.eth_state.last_ethereum_block))
          (head - w.number_of_confirmations_for_event) with ⟨ra, t2⟩
      rw [ha] at h
      have hmem := get_accepted_ops_trace_mem w
        (head - w.number_of_confirmations_for_event -
          (head - w.eth_state.last_ethereum_block))
        (head - w.number_of_confirmations_for_event)
      rw [ha] at hmem
      cases ra with
      | error e => exact Except.noConfusion h
      | ok a0 => exact List.mem_append.mpr (Or.inr hmem)
  · intro confirmations last_block heads b h1 h2
    exact pollWindows_cover_aux confirmations heads last_block b (by omega) h2

/-- Witness for C1: the second scenario poll issues the accepted-window query
for blocks 130 to 135, and block fifteen is covered by the counterexample
window sequence. -/
theorem C1_witness :
    Call.get_priority_op_events (BlockNumber.Number 130) (BlockNumber.Number 135) ∈
      (process_new_blocks scenarioRestored 145).2 ∧
    ∃ win ∈ pollWindows 0 10 [20, 30], win.1 ≤ 15 ∧ 15 ≤ win.2 := by
  constructor
  · exact C1_windows_cover.1 scenarioRestored 145 scenarioPolled rfl
  · exact C1_windows_cover.2 0 10 [20, 30] 15 (by decide) (by decide)

/-- C2 counterexample: the poll following the restore queries the accepted
range with inclusive lower bound 130, the new accepted bound minus the block
difference, not 131 as the claim states. -/
theorem C2_counterexample :
    Call.get_priority_op_events (BlockNumber.Number 130) (BlockNumber.Number 135) ∈
      (poll_eth_node scenarioRestored).2 ∧
    Call.get_priority_op_events (BlockNumber.Number 131) (BlockNumber.Number 135) ∉
      (poll_eth_node scenarioRestored).2 := by
  decide

/-- C2 amended: with confirmations ten and no prior state, restore at head
140 queries the accepted range from zero (the saturated 140 - 10 - 35000) to
130 and the unconfirmed range from 131 to Latest; the subsequent poll at head
145 (block difference five) queries the accepted range from 130 inclusive to
135 and the unconfirmed range from 136 to Latest. -/
theorem C2_scenario_amended :
    (140 : Nat) - 10 - PRIORITY_EXPIRATION = 0 ∧
    (restore_state_from_eth scenarioWatch 140).2 =
      [Call.get_priority_op_events (BlockNumber.Number 131) BlockNumber.Latest,
       Call.get_new_token_events (BlockNumber.Number 131) BlockNumber.Latest,
       Call.get_register_user_events (BlockNumber.Number 131) BlockNumber.Latest,
       Call.get_priority_op_events (BlockNumber.Number 0) (BlockNumber.Number 130),
       Call.get_new_token_events (BlockNumber.Number 0) (BlockNumber.Number 130),
       Call.get_register_user_events (BlockNumber.Number 0) (BlockNumber.Number 130)] ∧
    scenarioRestored.eth_state.last_ethereum_block = 140 ∧
    (poll_eth_node scenarioRestored).2 =
      [Call.block_number,
       Call.get_priority_op_events (BlockNumber.Number 136) BlockNumber.Latest,
       Call.get_new_token_events (BlockNumber.Number 136) BlockNumber.Latest,
       Call.get_register_user_events (BlockNumber.Number 136) BlockNumber.Latest,
       Call.get_priority_op_events (BlockNumber.Number 130) (BlockNumber.Number 135),
       Call.get_new_token_events (BlockNumber.Number 130) (BlockNumber.Number 135),
       Call.get_register_user_events (BlockNumber.Number 130) (BlockNumber.Number 135)] ∧
    scenarioPolled.eth_state.last_ethereum_block = 145 :=
  ⟨by decide, rfl, rfl, rfl, rfl⟩

theorem polling_allowed_working (w : EthWatch) (now : Nat)
    (hmode : w.mode = WatcherMode.Working) : polling_allowed w now = (true, w) := by
  unfold polling_allowed
  rw [hmode]

theorem polling_allowed_backoff (w : EthWatch) (t now : Nat)
    (hmode : w.mode = WatcherMode.Backoff t) :
    polling_allowed w now =
      (if t ≤ now then (true, { w with mode := WatcherMode.Working }) else (false, w)) := by
  unfold polling_allowed
  rw [hmode]

theorem handle_poll_message_blocked (w : EthWatch) (now : Nat) (w1 : EthWatch)
    (hpa : polling_allowed w now = (false, w1)) : handle_poll_message w now = (w1, []) := by
  unfold handle_poll_message
  rw [hpa]

theorem handle_poll_message_allowed (w : EthWatch) (now : Nat) (w1 : EthWatch)
    (hpa : polling_allowed w now = (true, w1)) :
    handle_poll_message w now = poll_outcome w1 now (poll_eth_node w1) := by
  unfold handle_poll_message
  rw [hpa]

theorem poll_outcome_error (w1 : EthWatch) (now : Nat) (e : String) (t : List Call) :
    poll_outcome w1 now (Except.error e, t) =
      (if is_backoff_requested e then (enter_backoff_mode w1 now, t) else (w1, t)) := rfl

theorem polling_allowed_eth_state (w : EthWatch) (now : Nat) :
    ((polling_allowed w now).2).eth_state = w.eth_state := by
  unfold polling_allowed
  cases hm : w.mode with
  | Working => rfl
  | Backoff t =>
    by_cases hle : t ≤ now
    · simp [hle]
    · simp [hle]

theorem polling_allowed_true_mode (w : EthWatch) (now : Nat) (w1 : EthWatch)
    (h : polling_allowed w now = (true, w1)) : w1.mode = WatcherMode.Working := by
  unfold polling_allowed at h
  cases hm : w.mode with
  | Working =>
    rw [hm] at h
    have h2 : ((true, w) : Bool × EthWatch) = (true, w1) := h
    have h3 : w = w1 := congrArg Prod.snd h2
    rw [← h3, hm]
  | Backoff t =>
    rw [hm] at h
    have h2 : (if t ≤ now then ((true, { w with mode := WatcherMode.Working }) : Bool × EthWatch)
        else (false, w)) = (true, w1) := h
    by_cases hle : t ≤ now
    · rw [if_pos hle] at h2
      have h3 : ({ w with mode := WatcherMode.Working } : EthWatch) = w1 :=
        congrArg Prod.snd h2
      rw [← h3]
    · rw [if_neg hle] at h2
      have h3 : false = true := congrArg Prod.fst h2
      cases h3

/-- C4: whenever any client query of a poll cycle returns an error, the
confirmation state after handling the poll message equals the state before
it: set_new_state runs only after every query of the cycle has succeeded, so
no error path ever commits a partial update. -/
theorem C4_no_partial_update (w : EthWatch) (now : Nat) (e : String)
    (h : (poll_eth_node (polling_allowed w now).2).1 = Except.error e) :
    (handle_poll_message w now).1.eth_state = w.eth_state := by
  rcases hp : polling_allowed w now with ⟨allowed, w1⟩
  have hs : w1.eth_state = w.eth_state := by
    have h0 := polling_allowed_eth_state w now
    rw [hp] at h0
    exact h0
  rw [hp] at h
  have h2 : (poll_eth_node w1).1 = Except.error e := h
  cases allowed with
  | false =>
    rw [handle_poll_message_blocked w now w1 hp]
    exact hs
  | true =>
    rw [handle_poll_message_allowed w now w1 hp]
    rcases hq : poll_eth_node w1 with ⟨r, t⟩
    rw [hq] at h2
    have hr : r = Except.error e := h2
    subst hr
    rw [poll_outcome_error]
    by_cases hb : is_backoff_requested e
    · rw [if_pos hb]
      exact hs
    · rw [if_neg hb]
      exact hs

/-- Witness for C4: the always-failing client leaves the confirmation state
untouched. -/
theorem C4_witness :
    (handle_poll_message failingWatch 0).1.eth_state = failingWatch.eth_state :=
  C4_no_partial_update failingWatch 0 errOther rfl

/-- C5: a PollETHNode message handled in Backoff t with now strictly before t
issues zero client calls and leaves the watcher, state and mode alike,
unchanged; handled with now at or past t, polling is allowed again with the
mode flipped to Working and the message is processed exactly as a normal poll
of the Working watcher. -/
theorem C5_backoff_suppresses (w : EthWatch) (t now : Nat)
    (hmode : w.mode = WatcherMode.Backoff t) :
    (now < t → handle_poll_message w now = (w, [])) ∧
    (t ≤ now →
      polling_allowed w now = (true, { w with mode := WatcherMode.Working }) ∧
      handle_poll_message w now =
        handle_poll_message { w with mode := WatcherMode.Working } now) := by
  constructor
  · intro hlt
    have hpa : polling_allowed w now = (false, w) := by
      rw [polling_allowed_backoff w t now hmode, if_neg (by omega)]
    exact handle_poll_message_blocked w now w hpa
  · intro hle
    have hpa : polling_allowed w now = (true, { w with mode := WatcherMode.Working }) := by
      rw [polling_allowed_backoff w t now hmode, if_pos hle]
    refine ⟨hpa, ?_⟩
    rw [handle_poll_message_allowed w now _ hpa,
      handle_poll_message_allowed { w with mode := WatcherMode.Working } now _
        (polling_allowed_working _ now rfl)]

/-- Witness for C5 at the backoff watcher with resume instant 100: at instant
fifty nothing happens; at instant 150 polling is allowed again with the mode
at Working. -/
theorem C5_witness :
    handle_poll_message backoffWatch 50 = (backoffWatch, []) ∧
    polling_allowed backoffWatch 150 =
      (true, { backoffWatch with mode := WatcherMode.Working }) :=
  ⟨(C5_backoff_suppresses backoffWatch 100 50 rfl).1 (by decide),
   ((C5_backoff_suppresses backoffWatch 100 150 rfl).2 (by decide)).1⟩

/-- C6: when polling is allowed and the poll fails with error text e, the
watcher ends in Backoff at now plus RATE_LIMIT_DELAY (thirty seconds) exactly
when e contains the pattern 429 Too Many Requests; every other poll failure
leaves the mode at Working. -/
theorem C6_backoff_iff_rate_limited :
    RATE_LIMIT_DELAY = 30 ∧
    ∀ (w w1 : EthWatch) (now : Nat) (e : String),
      polling_allowed w now = (true, w1) →
      (poll_eth_node w1).1 = Except.error e →
      (((handle_poll_message w now).1.mode =
          WatcherMode.Backoff (now + RATE_LIMIT_DELAY)) ↔ is_backoff_requested e = true) ∧
      (is_backoff_requested e = false →
        (handle_poll_message w now).1.mode = WatcherMode.Working) := by
  refine ⟨rfl, ?_⟩
  intro w w1 now e hpa hpoll
  have hmode1 : w1.mode = WatcherMode.Working := polling_allowed_true_mode w now w1 hpa
  rw [handle_poll_message_allowed w now w1 hpa]
  have hq : poll_eth_node w1 = (Except.error e, (poll_eth_node w1).2) :=
    Prod.ext hpoll rfl
  rw [hq, poll_outcome_error]
  cases hb : is_backoff_requested e with
  | true =>
    rw [if_pos rfl]
    constructor
    · constructor
      · intro _
        rfl
      · intro _
        rfl
    · intro h2
      cases h2
  | false =>
    rw [if_neg (by simp)]
    constructor
    · constructor
      · intro h2
        have h3 : WatcherMode.Working = WatcherMode.Backoff (now + RATE_LIMIT_DELAY) := by
          rw [← hmode1]
          exact h2
        cases h3
      · intro h2
        cases h2
    · intro _
      exact hmode1

/-- Witness for C6: the rate-limited client sends the watcher into backoff
until instant thirty, while the generic failure leaves it Working. -/
theorem C6_witness :
    (handle_poll_message rateLimitedWatch 0).1.mode =
      WatcherMode.Backoff (0 + RATE_LIMIT_DELAY) ∧
    (handle_poll_message failingWatch 0).1.mode = WatcherMode.Working :=
  ⟨((C6_backoff_iff_rate_limited.2 rateLimitedWatch rateLimitedWatch 0 errRateLimited rfl
      rfl).1).mpr (by decide),
   (C6_backoff_iff_rate_limited.2 failingWatch failingWatch 0 errOther rfl rfl).2
     (by decide)⟩

/-- C7: a delegated multiplexer call tries the providers strictly in list
order and returns the result of the first provider that succeeds, never
invoking the providers after it; it returns the aggregate error exactly when
every provider in the list fails; encode_tx_data always uses the first
provider only. -/
theorem C7_failover_order :
    (∀ (α β : Type) (pre : List (String × MultiplexedProvider α β))
       (post : List (String × MultiplexedProvider α β)) (name : String)
       (p : MultiplexedProvider α β) (v : α),
       (∀ qc ∈ pre, exceptFailed qc.2.call_result = true) →
       p.call_result = Except.ok v →
       multiple_call (pre ++ (name, p) :: post) = (Except.ok v, providerNames pre ++ [name])) ∧
    (∀ (α β : Type) (clients : List (String × MultiplexedProvider α β)),
       (∀ qc ∈ clients, exceptFailed qc.2.call_result = true) →
       multiple_call clients = (Except.error ALL_FAILED, providerNames clients)) ∧
    (∀ (α β : Type) (clients : List (String × MultiplexedProvider α β)) (e : String)
       (invoked : List String),
       multiple_call clients = (Except.error e, invoked) →
       e = ALL_FAILED ∧ ∀ qc ∈ clients, exceptFailed qc.2.call_result = true) ∧
    (∀ (α β : Type) (self : MultiplexerEthereumClient α β) (name : String)
       (p : MultiplexedProvider α β) (rest : List (String × MultiplexedProvider α β)),
       self.clients = (name, p) :: rest →
       self.encode_tx_data = some p.encode_result) := by
  refine ⟨?_, ?_, ?_, ?_⟩
  · intro α β pre
    induction pre with
    | nil =>
      intro post name p v hpre hok
      simp [multiple_call, hok, providerNames]
    | cons qc rest ih =>
      intro post name p v hpre hok
      rcases qc with ⟨n0, p0⟩
      have hqc : exceptFailed p0.call_result = true := hpre (n0, p0) (List.mem_cons_self _ _)
      cases hc : p0.call_result with
      | ok v0 =>
        rw [hc] at hqc
        simp [exceptFailed] at hqc
      | error e0 =>
        simp only [List.cons_append, multiple_call, hc, List.append_eq]
        rw [ih post name p v (fun x hx => hpre x (List.mem_cons_of_mem _ hx)) hok]
        simp [providerNames]
  · intro α β clients
    induction clients with
    | nil =>
      intro hall
      simp [multiple_call, providerNames]
    | cons qc rest ih =>
      intro hall
      rcases qc with ⟨n0, p0⟩
      have hqc : exceptFailed p0.call_result = true := hall (n0, p0) (List.mem_cons_self _ _)
      cases hc : p0.call_result with
      | ok v0 =>
        rw [hc] at hqc
        simp [exceptFailed] at hqc
      | error e0 =>
        simp only [multiple_call, hc]
        rw [ih (fun x hx => hall x (List.mem_cons_of_mem _ hx))]
        simp [providerNames]
  · intro α β clients
    induction clients with
    | nil =>
      intro e invoked h
      have h2 : ((Except.error ALL_FAILED : Except String α), ([] : List String)) =
          (Except.error e, invoked) := h
      have he : (Except.error ALL_FAILED : Except String α) = Except.error e :=
        congrArg Prod.fst h2
      injection he with he
      refine ⟨he.symm, ?_⟩
      intro qc hq
      cases hq
    | cons qc rest ih =>
      intro e invoked h
      rcases qc with ⟨n0, p0⟩
      cases hc : p0.call_result with
      | ok v0 =>
        simp only [multiple_call, hc] at h
        have h2 : ((Except.ok v0 : Except String α), [n0]) = (Except.error e, invoked) := h
        have h3 : (Except.ok v0 : Except String α) = Except.error e := congrArg Prod.fst h2
        cases h3
      | error e0 =>
        simp only [multiple_call, hc] at h
        rcases hm : multiple_call rest with ⟨r, inv⟩
        rw [hm] at h
        have h2 : ((r, n0 :: inv) : Except String α × List String) =
            (Except.error e, invoked) := h
        have hr : r = Except.error e := congrArg Prod.fst h2
        rw [hr] at hm
        obtain ⟨he, hrest⟩ := ih e inv hm
        refine ⟨he, ?_⟩
        intro x hx
        cases hx with
        | head =>
          rw [hc]
          rfl
        | tail _ hx2 => exact hrest x hx2
  · intro α β self name p rest h
    unfold MultiplexerEthereumClient.encode_tx_data
    rw [h]
    rfl

/-- Witness for C7: with failing provider A followed by succeeding providers
B and C, the call returns the result of B having invoked exactly A then B; a
list holding only the failing provider yields the aggregate error; encoding
uses provider A alone. -/
theorem C7_witness :
    multiple_call muxABC.clients = (Except.ok 7, [nameA, nameB]) ∧
    multiple_call [(nameA, provA)] = (Except.error ALL_FAILED, [nameA]) ∧
    muxABC.encode_tx_data = some 17 :=
  ⟨C7_failover_order.1 Nat Nat [(nameA, provA)] [(nameC, provC)] nameB provB 7
      (by decide) rfl,
   C7_failover_order.2.1 Nat Nat [(nameA, provA)] (by decide),
   C7_failover_order.2.2.2 Nat Nat muxABC nameA provA [(nameB, provB), (nameC, provC)] rfl⟩

/-- C10: a multiplexer built by new (the value Default also yields) holds an
empty provider list; on it every delegated call fails immediately with the
aggregate all-providers error without invoking any provider, and
encode_tx_data panics (embedded as none) rather than returning a value: the
ordered non-empty provider list the spec assumes is not enforced by
construction. -/
theorem C10_empty_by_construction (α β : Type) :
    (MultiplexerEthereumClient.new : MultiplexerEthereumClient α β).clients = [] ∧
    (MultiplexerEthereumClient.new : MultiplexerEthereumClient α β).call =
      (Except.error ALL_FAILED, []) ∧
    (MultiplexerEthereumClient.new : MultiplexerEthereumClient α β).encode_tx_data = none :=
  ⟨rfl, rfl, rfl⟩

end EthWatcher
